import Mathlib

/-!
Verification of the benchmark-statistics component of k8s-api-bench (main.go).

The program accumulates operation timings in a map from operation name to a
slice of time.Duration samples (BenchmarkResults), computes per-operation
summary statistics (CalculateStats), and renders them in a table (PrintStats).
This file gives a shallow embedding of those functions and proves the spec
claims about them.

Modelling conventions:
- time.Duration is a signed 64-bit count of nanoseconds; it is modelled as
  unbounded Int (int64 overflow is not modelled). Go integer division on
  int64 truncates toward zero, which is Int.tdiv.
- A Go map is modelled as an association list with unique keys (every state
  reachable through Add has pairwise distinct keys); reading a missing key
  yields the nil slice, i.e. [].
- sort.Slice with comparator durations[i] < durations[j] produces the unique
  ascending reordering of the slice (ascending duplicates included), which is
  what List.insertionSort with the reflexive order computes; sort.Slice
  mutates the slice in place, so the post-call state of the Results map is
  modelled separately (CalculateStatsPost).
- math.Ceil(float64(n) * 0.95) is modelled as the exact ceiling of 19n/20,
  which in natural-number division is (19n + 19) / 20; the float64
  computation is exact for every sample count that can arise in practice.
-/

namespace KBench

/-- time.Duration: an int64 nanosecond count, modelled as Int. -/
abbrev Duration := Int

/-- The map from operation name to slice of durations, as an association list. -/
abbrev ResultsMap := List (String × List Duration)

/-- BenchmarkResults stores the results of all benchmark operations. -/
structure BenchmarkResults where
  Results : ResultsMap
deriving Repr, DecidableEq

/-- NewBenchmarkResults creates a new BenchmarkResults instance (empty map). -/
def NewBenchmarkResults : BenchmarkResults := ⟨[]⟩

/-- appendEntry m op d models the Go statement m[op] = append(m[op], d):
append to the existing entry, or create a one-element entry for a new key. -/
def appendEntry : ResultsMap → String → Duration → ResultsMap
  | [], op, d => [(op, [d])]
  | (k, ds) :: rest, op, d =>
      if k = op then (k, ds ++ [d]) :: rest else (k, ds) :: appendEntry rest op d

/-- Add adds a new duration for the specified operation. -/
def BenchmarkResults.Add (br : BenchmarkResults) (operation : String)
    (duration : Duration) : BenchmarkResults :=
  ⟨appendEntry br.Results operation duration⟩

/-- lookupSeries models reading m[op] from the Go map: the stored slice, or
the nil slice [] when the key is absent. -/
def lookupSeries : ResultsMap → String → List Duration
  | [], _ => []
  | (k, ds) :: rest, op => if k = op then ds else lookupSeries rest op

/-- measureTime runs the operation once and records the measured duration in
the results only when the operation returns no error. The single invocation
is represented by its outcome: some d for a success measured at d, none for
an error (the error is only printed, never recorded). -/
def measureTime (name : String) (outcome : Option Duration)
    (results : BenchmarkResults) : BenchmarkResults :=
  match outcome with
  | none => results
  | some d => results.Add name d

/-- runBenchmark runs the operation for the given number of iterations,
sequentially: iteration i performs exactly one invocation, whose outcome is
trial i, and measureTime records it on success. -/
def runBenchmark (name : String) (iterations : Nat) (trial : Nat → Option Duration)
    (results : BenchmarkResults) : BenchmarkResults :=
  (List.range iterations).foldl (fun st i => measureTime name (trial i) st) results

/-- The ascending reordering produced by sort.Slice with the < comparator. -/
def sortDurations (l : List Duration) : List Duration :=
  l.insertionSort (fun a b => a ≤ b)

/-- The five per-operation statistics stored by CalculateStats under the keys
"min", "max", "avg", "median" and "p95". -/
structure Summary where
  min : Duration
  max : Duration
  avg : Duration
  median : Duration
  p95 : Duration
deriving Repr, DecidableEq

/-- The value int(math.Ceil(float64(n) * 0.95)) computed by CalculateStats,
modelled exactly: the ceiling of 19n/20 in natural-number arithmetic. -/
def ceil95 (n : Nat) : Nat := (19 * n + 19) / 20

/-- The statistics CalculateStats computes from the (already sorted, nonempty)
durations slice: one pass accumulating sum/min/max, truncating integer
division for the average, middle element or truncated mean of the two middle
elements for the median, and the nearest-rank element for the 95th
percentile, with the index clamped to the last position. -/
def summarizeSorted (durations : List Duration) : Summary :=
  let sum := durations.foldl (fun s d => s + d) 0
  let mn := durations.foldl (fun m d => if d < m then d else m) (durations.headD 0)
  let mx := durations.foldl (fun m d => if d > m then d else m) (durations.headD 0)
  let avg := Int.tdiv sum (durations.length : Int)
  let median :=
    if durations.length % 2 = 0 then
      Int.tdiv (durations.getD (durations.length / 2 - 1) 0 +
        durations.getD (durations.length / 2) 0) 2
    else
      durations.getD (durations.length / 2) 0
  let p95Index :=
    if ceil95 durations.length - 1 ≥ durations.length then durations.length - 1
    else ceil95 durations.length - 1
  { min := mn, max := mx, avg := avg, median := median, p95 := durations.getD p95Index 0 }

/-- The per-operation body of CalculateStats: sort the slice, then compute
the five statistics from the sorted slice. -/
def summarize (durations : List Duration) : Summary :=
  summarizeSorted (sortDurations durations)

/-- CalculateStats: the returned map of statistics, one entry per operation
whose series is nonempty; series with zero samples are skipped. -/
def BenchmarkResults.CalculateStats (br : BenchmarkResults) :
    List (String × Summary) :=
  br.Results.filterMap fun e =>
    if e.2.isEmpty then none else some (e.1, summarize e.2)

/-- The state of the Results map after a call to CalculateStats: sort.Slice
sorted every nonempty durations slice in place. -/
def BenchmarkResults.CalculateStatsPost (br : BenchmarkResults) : BenchmarkResults :=
  ⟨br.Results.map fun e => (e.1, if e.2.isEmpty then e.2 else sortDurations e.2)⟩

/-- Reading an operation's Summary from the map returned by CalculateStats. -/
def lookupStats : List (String × Summary) → String → Option Summary
  | [], _ => none
  | (k, s) :: rest, op => if k = op then some s else lookupStats rest op

/-- sort.Strings: ascending lexicographic order. Go compares byte-wise, which
on UTF-8 encoded strings coincides with the codepoint order of String's
linear order used here. -/
def sortStrings (l : List String) : List String :=
  l.insertionSort (fun a b => a ≤ b)

/-- The layout PrintStats derives before rendering: the name-column width,
the fixed width of each of the five duration columns, and the row order
(one data row per operation, emitted in the order of operations). -/
structure Layout where
  opColWidth : Nat
  timeColWidth : Nat
  operations : List String
deriving Repr, DecidableEq

/-- PrintStats: collect the operation names of CalculateStats, sort them,
set the name column to the longest name length (in bytes, Go len) plus 2,
and use the constant 12 for each duration column. -/
def BenchmarkResults.PrintStatsLayout (br : BenchmarkResults) : Layout :=
  let stats := br.CalculateStats
  let operations := sortStrings (stats.map fun e => e.1)
  let maxOpLength :=
    operations.foldl (fun m op => if op.utf8ByteSize > m then op.utf8ByteSize else m) 0
  { opColWidth := maxOpLength + 2, timeColWidth := 12, operations := operations }

/-- The sum of a series of samples, in the duration base unit. -/
def sumDurations (l : List Duration) : Duration := l.foldl (fun s d => s + d) 0

/-- The p95 rank index exactly as the spec words it: index =
ceil(count times 0.95) minus 1, clamped to [0, count minus 1] (the clamp to 0
is automatic in natural-number subtraction). -/
def p95RankIndexSpec (n : Nat) : Nat :=
  min (Nat.ceil ((n : ℚ) * (95 / 100)) - 1) (n - 1)

/-! Helper lemmas about the folds CalculateStats uses. -/

theorem foldl_min_le_init {α : Type} [LinearOrder α] (l : List α) (a : α) :
    l.foldl (fun m d => if d < m then d else m) a ≤ a := by
  induction l generalizing a with
  | nil => simp
  | cons x xs ih =>
      simp only [List.foldl_cons]
      refine le_trans (ih _) ?_
      split
      · exact le_of_lt (by assumption)
      · exact le_refl a

theorem foldl_min_le_mem {α : Type} [LinearOrder α] (l : List α) (a : α)
    (x : α) (hx : x ∈ l) :
    l.foldl (fun m d => if d < m then d else m) a ≤ x := by
  induction l generalizing a with
  | nil => cases hx
  | cons y ys ih =>
      simp only [List.foldl_cons]
      rcases List.mem_cons.mp hx with h | h
      · subst h
        refine le_trans (foldl_min_le_init ys _) ?_
        split
        · exact le_refl x
        · exact le_of_not_lt (by assumption)
      · exact ih _ h

theorem foldl_min_mem {α : Type} [LinearOrder α] (l : List α) (a : α) :
    l.foldl (fun m d => if d < m then d else m) a = a ∨
      l.foldl (fun m d => if d < m then d else m) a ∈ l := by
  induction l generalizing a with
  | nil => exact Or.inl rfl
  | cons y ys ih =>
      simp only [List.foldl_cons]
      rcases ih (if y < a then y else a) with h | h
      · rw [h]
        split
        · exact Or.inr (List.mem_cons_self _ _)
        · exact Or.inl rfl
      · exact Or.inr (List.mem_cons_of_mem _ h)

theorem foldl_max_init_le {α : Type} [LinearOrder α] (l : List α) (a : α) :
    a ≤ l.foldl (fun m d => if d > m then d else m) a := by
  induction l generalizing a with
  | nil => simp
  | cons x xs ih =>
      simp only [List.foldl_cons]
      refine le_trans ?_ (ih _)
      split
      · exact le_of_lt (by assumption)
      · exact le_refl a

theorem foldl_max_mem_le {α : Type} [LinearOrder α] (l : List α) (a : α)
    (x : α) (hx : x ∈ l) :
    x ≤ l.foldl (fun m d => if d > m then d else m) a := by
  induction l generalizing a with
  | nil => cases hx
  | cons y ys ih =>
      simp only [List.foldl_cons]
      rcases List.mem_cons.mp hx with h | h
      · subst h
        refine le_trans ?_ (foldl_max_init_le ys _)
        split
        · exact le_refl x
        · exact le_of_not_lt (by assumption)
      · exact ih _ h

theorem foldl_max_mem {α : Type} [LinearOrder α] (l : List α) (a : α) :
    l.foldl (fun m d => if d > m then d else m) a = a ∨
      l.foldl (fun m d => if d > m then d else m) a ∈ l := by
  induction l generalizing a with
  | nil => exact Or.inl rfl
  | cons y ys ih =>
      simp only [List.foldl_cons]
      rcases ih (if y > a then y else a) with h | h
      · rw [h]
        split
        · exact Or.inr (List.mem_cons_self _ _)
        · exact Or.inl rfl
      · exact Or.inr (List.mem_cons_of_mem _ h)

theorem foldl_add_ge (l : List Duration) (a c : Duration) (h : ∀ x ∈ l, a ≤ x) :
    c + (l.length : Int) * a ≤ l.foldl (fun s d => s + d) c := by
  induction l generalizing c with
  | nil => simp
  | cons x xs ih =>
      simp only [List.foldl_cons, List.length_cons]
      have hx : a ≤ x := h x (List.mem_cons_self _ _)
      have ihx := ih (c + x) (fun y hy => h y (List.mem_cons_of_mem _ hy))
      have hcast : ((xs.length + 1 : Nat) : Int) = (xs.length : Int) + 1 := by push_cast; ring
      rw [hcast, add_one_mul]
      linarith

theorem foldl_add_le (l : List Duration) (a c : Duration) (h : ∀ x ∈ l, x ≤ a) :
    l.foldl (fun s d => s + d) c ≤ c + (l.length : Int) * a := by
  induction l generalizing c with
  | nil => simp
  | cons x xs ih =>
      simp only [List.foldl_cons, List.length_cons]
      have hx : x ≤ a := h x (List.mem_cons_self _ _)
      have ihx := ih (c + x) (fun y hy => h y (List.mem_cons_of_mem _ hy))
      have hcast : ((xs.length + 1 : Nat) : Int) = (xs.length : Int) + 1 := by push_cast; ring
      rw [hcast, add_one_mul]
      linarith

theorem foldl_add_perm {l₁ l₂ : List Duration} (h : l₁.Perm l₂) (c : Duration) :
    l₁.foldl (fun s d => s + d) c = l₂.foldl (fun s d => s + d) c := by
  induction h generalizing c with
  | nil => rfl
  | cons x _ ih => simp only [List.foldl_cons]; exact ih _
  | swap x y l =>
      simp only [List.foldl_cons]
      have : c + y + x = c + x + y := by ring
      rw [this]
  | trans _ _ ih₁ ih₂ => exact (ih₁ c).trans (ih₂ c)

/-! Helper lemmas about Go's truncating int64 division, Int.tdiv. -/

theorem le_tdiv_of_mul_le {n a b : Int} (hn : 0 < n) (h : n * a ≤ b) :
    a ≤ Int.tdiv b n := by
  rcases le_or_lt 0 b with hb | hb
  · rw [Int.tdiv_eq_ediv hb hn.le]
    exact (Int.le_ediv_iff_mul_le hn).mpr (by linarith [mul_comm a n])
  · have hb' : 0 ≤ -b := by linarith
    have he : Int.tdiv b n = -Int.tdiv (-b) n := by rw [Int.neg_tdiv]; ring
    rw [he, Int.tdiv_eq_ediv hb' hn.le]
    have h2 : -b ≤ n * (-a) := by linarith
    have h3 : (-b) / n ≤ (n * (-a)) / n := Int.ediv_le_ediv hn h2
    rw [Int.mul_ediv_cancel_left _ (ne_of_gt hn)] at h3
    linarith

theorem tdiv_le_of_le_mul {n a b : Int} (hn : 0 < n) (h : b ≤ n * a) :
    Int.tdiv b n ≤ a := by
  rcases le_or_lt 0 b with hb | hb
  · rw [Int.tdiv_eq_ediv hb hn.le]
    have h3 : b / n ≤ (n * a) / n := Int.ediv_le_ediv hn h
    rwa [Int.mul_ediv_cancel_left _ (ne_of_gt hn)] at h3
  · have hb' : 0 ≤ -b := by linarith
    have he : Int.tdiv b n = -Int.tdiv (-b) n := by rw [Int.neg_tdiv]; ring
    rw [he, Int.tdiv_eq_ediv hb' hn.le]
    have h3 : -a ≤ (-b) / n :=
      (Int.le_ediv_iff_mul_le hn).mpr (by linarith [mul_comm (-a) n])
    linarith

/-! Helper lemmas about sortDurations. -/

theorem sortDurations_sorted (l : List Duration) :
    (sortDurations l).Sorted (fun a b => a ≤ b) :=
  List.sorted_insertionSort _ l

theorem sortDurations_perm (l : List Duration) : (sortDurations l).Perm l :=
  List.perm_insertionSort _ l

theorem sortDurations_eq_of_perm {l₁ l₂ : List Duration} (h : l₁.Perm l₂) :
    sortDurations l₁ = sortDurations l₂ :=
  List.eq_of_perm_of_sorted
    (((sortDurations_perm l₁).trans h).trans (sortDurations_perm l₂).symm)
    (sortDurations_sorted l₁) (sortDurations_sorted l₂)

theorem summarize_perm {l₁ l₂ : List Duration} (h : l₁.Perm l₂) :
    summarize l₁ = summarize l₂ := by
  unfold summarize
  rw [sortDurations_eq_of_perm h]

theorem sortDurations_ne_nil {l : List Duration} (h : l ≠ []) :
    sortDurations l ≠ [] := by
  intro hc
  exact h ((sortDurations_perm l).symm.trans (hc ▸ List.Perm.refl _)).eq_nil

theorem sortDurations_isEmpty (l : List Duration) :
    (sortDurations l).isEmpty = l.isEmpty := by
  rcases l with _ | ⟨x, xs⟩
  · rfl
  · have h := sortDurations_ne_nil (l := x :: xs) (by simp)
    rcases hs : sortDurations (x :: xs) with _ | ⟨y, ys⟩
    · exact absurd hs h
    · rfl

theorem getD_mem {l : List Duration} {i : Nat} (hi : i < l.length) :
    l.getD i 0 ∈ l := by
  rw [List.getD_eq_getElem l 0 hi]
  exact List.getElem_mem hi

/-! The exact value of the p95 rank ceiling. -/

theorem ceil95_spec (n : Nat) : Nat.ceil ((n : ℚ) * (95 / 100)) = ceil95 n := by
  apply le_antisymm
  · rw [Nat.ceil_le]
    have hnat : 19 * n ≤ 20 * ceil95 n := by unfold ceil95; omega
    have hq : ((19 * n : Nat) : ℚ) ≤ ((20 * ceil95 n : Nat) : ℚ) := by exact_mod_cast hnat
    push_cast at hq
    linarith
  · have hle := Nat.le_ceil ((n : ℚ) * (95 / 100))
    have hnat : 19 * n ≤ 20 * Nat.ceil ((n : ℚ) * (95 / 100)) := by
      have hq : ((19 * n : Nat) : ℚ) ≤ ((20 * Nat.ceil ((n : ℚ) * (95 / 100)) : Nat) : ℚ) := by
        push_cast
        linarith
      exact_mod_cast hq
    unfold ceil95
    omega

theorem ceil95_le (n : Nat) : ceil95 n ≤ n := by unfold ceil95; omega

theorem ceil95_pos {n : Nat} (h : 0 < n) : 0 < ceil95 n := by unfold ceil95; omega

/-- The index CalculateStats ends up using equals the spec's clamped rank. -/
theorem p95Index_eq_spec (n : Nat) :
    (if ceil95 n - 1 ≥ n then n - 1 else ceil95 n - 1) = p95RankIndexSpec n := by
  unfold p95RankIndexSpec
  rw [ceil95_spec]
  have h := ceil95_le n
  rcases Nat.eq_zero_or_pos n with h0 | h0
  · subst h0; rfl
  · have h1 := ceil95_pos h0
    have : ¬ ceil95 n - 1 ≥ n := by omega
    rw [if_neg this]
    omega

/-! Helper lemmas about the association-list operations. -/

theorem lookupSeries_appendEntry_same (m : ResultsMap) (op : String) (d : Duration) :
    lookupSeries (appendEntry m op d) op = lookupSeries m op ++ [d] := by
  induction m with
  | nil => simp [appendEntry, lookupSeries]
  | cons e rest ih =>
      obtain ⟨k, ds⟩ := e
      by_cases hk : k = op
      · subst hk
        simp [appendEntry, lookupSeries]
      · simp [appendEntry, lookupSeries, hk, ih]

theorem lookupStats_calculateStats_not_mem (m : ResultsMap) (op : String)
    (h : op ∉ m.map (fun e => e.1)) :
    lookupStats (BenchmarkResults.CalculateStats ⟨m⟩) op = none := by
  induction m with
  | nil => rfl
  | cons e rest ih =>
      obtain ⟨k, ds⟩ := e
      simp only [List.map_cons, List.mem_cons] at h
      push_neg at h
      obtain ⟨hk, hrest⟩ := h
      have hkop : k ≠ op := fun hc => hk hc.symm
      simp only [BenchmarkResults.CalculateStats, List.filterMap_cons] at *
      by_cases hds : ds.isEmpty
      · simp only [hds, if_pos trivial]
        simpa [BenchmarkResults.CalculateStats] using ih hrest
      · simp only [hds]
        simp only [Bool.false_eq_true, if_false, if_neg hds]
        simp only [lookupStats, if_neg hkop]
        simpa [BenchmarkResults.CalculateStats] using ih hrest

/-- The map returned by CalculateStats, read at a key: none when the stored
series is empty or absent, the summary of the stored series otherwise. -/
theorem lookupStats_calculateStats (m : ResultsMap) (op : String)
    (h : (m.map (fun e => e.1)).Nodup) :
    lookupStats (BenchmarkResults.CalculateStats ⟨m⟩) op =
      if lookupSeries m op = [] then none
      else some (summarize (lookupSeries m op)) := by
  induction m with
  | nil => rfl
  | cons e rest ih =>
      obtain ⟨k, ds⟩ := e
      simp only [List.map_cons, List.nodup_cons] at h
      obtain ⟨hk, hrest⟩ := h
      by_cases hkop : k = op
      · subst hkop
        by_cases hds : ds.isEmpty
        · have hdnil : ds = [] := by simpa [List.isEmpty_iff] using hds
          subst hdnil
          simp only [BenchmarkResults.CalculateStats, List.filterMap_cons, List.isEmpty_nil,
            if_pos trivial, lookupSeries, if_pos rfl]
          have := lookupStats_calculateStats_not_mem rest k hk
          simpa [BenchmarkResults.CalculateStats] using this
        · have hdnil : ds ≠ [] := by simpa [List.isEmpty_iff] using hds
          simp [BenchmarkResults.CalculateStats, List.filterMap_cons, hds,
            lookupSeries, lookupStats, hdnil]
      · simp only [lookupSeries, if_neg hkop]
        by_cases hds : ds.isEmpty
        · simp only [BenchmarkResults.CalculateStats, List.filterMap_cons, hds, if_pos trivial]
          simpa [BenchmarkResults.CalculateStats] using ih hrest
        · simp only [BenchmarkResults.CalculateStats, List.filterMap_cons, hds,
            Bool.false_eq_true, if_false, if_neg hds]
          simp only [lookupStats, if_neg hkop]
          simpa [BenchmarkResults.CalculateStats] using ih hrest

/-- The series stored under a key after CalculateStats mutated the map. -/
theorem lookupSeries_calculateStatsPost (m : ResultsMap) (op : String) :
    lookupSeries (BenchmarkResults.CalculateStatsPost ⟨m⟩).Results op =
      if (lookupSeries m op).isEmpty then lookupSeries m op
      else sortDurations (lookupSeries m op) := by
  induction m with
  | nil => rfl
  | cons e rest ih =>
      obtain ⟨k, ds⟩ := e
      by_cases hkop : k = op
      · subst hkop
        simp [BenchmarkResults.CalculateStatsPost, lookupSeries]
      · simp only [BenchmarkResults.CalculateStatsPost, List.map_cons, lookupSeries,
          if_neg hkop]
        simpa [BenchmarkResults.CalculateStatsPost] using ih

/-! The individual fields of summarizeSorted, unfolded. -/

theorem summarizeSorted_min (s : List Duration) :
    (summarizeSorted s).min = s.foldl (fun m d => if d < m then d else m) (s.headD 0) := rfl

theorem summarizeSorted_max (s : List Duration) :
    (summarizeSorted s).max = s.foldl (fun m d => if d > m then d else m) (s.headD 0) := rfl

theorem summarizeSorted_avg (s : List Duration) :
    (summarizeSorted s).avg =
      Int.tdiv (s.foldl (fun x d => x + d) 0) (s.length : Int) := rfl

theorem summarizeSorted_median (s : List Duration) :
    (summarizeSorted s).median =
      if s.length % 2 = 0 then
        Int.tdiv (s.getD (s.length / 2 - 1) 0 + s.getD (s.length / 2) 0) 2
      else s.getD (s.length / 2) 0 := rfl

theorem summarizeSorted_p95 (s : List Duration) :
    (summarizeSorted s).p95 =
      s.getD (if ceil95 s.length - 1 ≥ s.length then s.length - 1
        else ceil95 s.length - 1) 0 := rfl

/-! The claim theorems. -/

/-- C1: for every series with at least one sample, the p95 statistic of
CalculateStats is the element of the ascending-sorted samples at index
ceil(count times 0.95) minus 1, clamped to the valid range: the nearest-rank
percentile, with no interpolation. -/
theorem p95_nearest_rank (l : List Duration) (h : l ≠ []) :
    (summarize l).p95 = (sortDurations l).getD (p95RankIndexSpec l.length) 0 := by
  unfold summarize
  rw [summarizeSorted_p95, (sortDurations_perm l).length_eq, p95Index_eq_spec]

/-- Witness for C1 at the spec's own sample series [1ms, 2ms, 3ms, 4ms]
(durations in nanoseconds): the nearest-rank formula applies and the p95 is
the 4ms sample. -/
theorem p95_nearest_rank_witness :
    (summarize [1000000, 2000000, 3000000, 4000000]).p95 =
      (sortDurations [1000000, 2000000, 3000000, 4000000]).getD
        (p95RankIndexSpec (List.length ([1000000, 2000000, 3000000, 4000000] : List Duration))) 0 ∧
    (summarize [1000000, 2000000, 3000000, 4000000]).p95 = 4000000 :=
  ⟨p95_nearest_rank _ (by decide), by decide⟩

/-- C3: for every series with at least one sample, the median of
CalculateStats is the middle element of the ascending-sorted samples when the
count is odd, and the two middle elements' mean taken in integer duration
arithmetic (truncating division by 2, exact at the duration granularity of
the spec's examples) when the count is even. -/
theorem median_middle (l : List Duration) (h : l ≠ []) :
    (l.length % 2 = 1 →
      (summarize l).median = (sortDurations l).getD (l.length / 2) 0) ∧
    (l.length % 2 = 0 →
      (summarize l).median =
        Int.tdiv ((sortDurations l).getD (l.length / 2 - 1) 0 +
          (sortDurations l).getD (l.length / 2) 0) 2) := by
  unfold summarize
  rw [summarizeSorted_median, (sortDurations_perm l).length_eq]
  constructor
  · intro hodd
    rw [if_neg (by omega)]
  · intro heven
    rw [if_pos heven]

/-- Witness for C3 at [1ms, 2ms, 3ms, 4ms]: even count, and the median is
(2ms + 3ms) / 2 = 2.5ms. -/
theorem median_middle_witness :
    ((List.length ([1000000, 2000000, 3000000, 4000000] : List Duration) % 2 = 1 →
      (summarize [1000000, 2000000, 3000000, 4000000]).median =
        (sortDurations [1000000, 2000000, 3000000, 4000000]).getD
          (List.length ([1000000, 2000000, 3000000, 4000000] : List Duration) / 2) 0) ∧
    (List.length ([1000000, 2000000, 3000000, 4000000] : List Duration) % 2 = 0 →
      (summarize [1000000, 2000000, 3000000, 4000000]).median =
        Int.tdiv ((sortDurations [1000000, 2000000, 3000000, 4000000]).getD
            (List.length ([1000000, 2000000, 3000000, 4000000] : List Duration) / 2 - 1) 0 +
          (sortDurations [1000000, 2000000, 3000000, 4000000]).getD
            (List.length ([1000000, 2000000, 3000000, 4000000] : List Duration) / 2) 0) 2)) ∧
    (summarize [1000000, 2000000, 3000000, 4000000]).median = 2500000 :=
  ⟨median_middle _ (by decide), by decide⟩

/-- C4: for every series with at least one sample, the mean of CalculateStats
is the integer sum of all samples divided by the count with Go's truncating
int64 division: pure duration-unit integer arithmetic, no floating point. -/
theorem avg_integer_mean (l : List Duration) (h : l ≠ []) :
    (summarize l).avg = Int.tdiv (sumDurations l) (l.length : Int) := by
  unfold summarize
  rw [summarizeSorted_avg, (sortDurations_perm l).length_eq]
  unfold sumDurations
  rw [foldl_add_perm (sortDurations_perm l)]

/-- Witness for C4 at [1ms, 2ms, 3ms, 4ms]: the mean is 10ms / 4 = 2.5ms. -/
theorem avg_integer_mean_witness :
    (summarize [1000000, 2000000, 3000000, 4000000]).avg =
      Int.tdiv (sumDurations [1000000, 2000000, 3000000, 4000000])
        ((List.length ([1000000, 2000000, 3000000, 4000000] : List Duration) : Int)) ∧
    (summarize [1000000, 2000000, 3000000, 4000000]).avg = 2500000 :=
  ⟨avg_integer_mean _ (by decide), by decide⟩

/-! Helper lemmas for the Runner claims. -/

theorem runBenchmark_succ (name : String) (N : Nat) (trial : Nat → Option Duration)
    (br : BenchmarkResults) :
    runBenchmark name (N + 1) trial br =
      measureTime name (trial N) (runBenchmark name N trial br) := by
  unfold runBenchmark
  rw [List.range_succ, List.foldl_append]
  rfl

/-- The series a run leaves for its own operation: whatever was there before,
followed by the durations of exactly the successful trials, in trial order. -/
theorem runBenchmark_series (name : String) (N : Nat) (trial : Nat → Option Duration)
    (br : BenchmarkResults) :
    lookupSeries (runBenchmark name N trial br).Results name =
      lookupSeries br.Results name ++ (List.range N).filterMap trial := by
  induction N with
  | zero => simp [runBenchmark]
  | succ n ih =>
      rw [runBenchmark_succ, List.range_succ, List.filterMap_append]
      cases htrial : trial n with
      | none =>
          simp only [measureTime, List.filterMap_cons, htrial, List.filterMap_nil,
            List.append_nil]
          exact ih
      | some d =>
          simp only [measureTime, BenchmarkResults.Add, List.filterMap_cons, htrial,
            List.filterMap_nil]
          rw [lookupSeries_appendEntry_same, ih, List.append_assoc]

/-- C5: runBenchmark with N iterations performs exactly one invocation per
iteration 0..N-1 (each iteration is one trial outcome); a failing trial
contributes no sample while later trials still run, so the recorded series is
exactly the successful trials' durations in order. In particular a fresh run
with N = 3 failing only on the second trial records a series of length
exactly 2 holding the first and third durations. -/
theorem runBenchmark_failure_isolation :
    (∀ (name : String) (N : Nat) (trial : Nat → Option Duration) (br : BenchmarkResults),
      lookupSeries (runBenchmark name N trial br).Results name =
        lookupSeries br.Results name ++ (List.range N).filterMap trial) ∧
    (∀ d₁ d₃ : Duration,
      lookupSeries (runBenchmark "op" 3
          (fun i => if i = 0 then some d₁ else if i = 2 then some d₃ else none)
          NewBenchmarkResults).Results "op" = [d₁, d₃]) := by
  constructor
  · exact runBenchmark_series
  · intro d₁ d₃
    rw [runBenchmark_series]
    rfl

/-! Bounds on the five statistics of a nonempty sorted series. -/

theorem summarizeSorted_min_le_mem (s : List Duration) (x : Duration) (hx : x ∈ s) :
    (summarizeSorted s).min ≤ x := by
  rw [summarizeSorted_min]
  exact foldl_min_le_mem s _ x hx

theorem summarizeSorted_mem_le_max (s : List Duration) (x : Duration) (hx : x ∈ s) :
    x ≤ (summarizeSorted s).max := by
  rw [summarizeSorted_max]
  exact foldl_max_mem_le s _ x hx

theorem summarizeSorted_bounds (s : List Duration) (hs : s ≠ []) :
    (summarizeSorted s).min ≤ (summarizeSorted s).median ∧
    (summarizeSorted s).median ≤ (summarizeSorted s).max ∧
    (summarizeSorted s).min ≤ (summarizeSorted s).avg ∧
    (summarizeSorted s).avg ≤ (summarizeSorted s).max ∧
    (summarizeSorted s).min ≤ (summarizeSorted s).p95 ∧
    (summarizeSorted s).p95 ≤ (summarizeSorted s).max := by
  have hslen : 0 < s.length := List.length_pos.mpr hs
  have hmed : (summarizeSorted s).min ≤ (summarizeSorted s).median ∧
      (summarizeSorted s).median ≤ (summarizeSorted s).max := by
    rw [summarizeSorted_median]
    by_cases he : s.length % 2 = 0
    · rw [if_pos he]
      have hia : s.length / 2 - 1 < s.length := by omega
      have hib : s.length / 2 < s.length := by omega
      have hamem := getD_mem hia
      have hbmem := getD_mem hib
      constructor
      · refine le_tdiv_of_mul_le (by norm_num) ?_
        have h₁ := summarizeSorted_min_le_mem s _ hamem
        have h₂ := summarizeSorted_min_le_mem s _ hbmem
        linarith
      · refine tdiv_le_of_le_mul (by norm_num) ?_
        have h₁ := summarizeSorted_mem_le_max s _ hamem
        have h₂ := summarizeSorted_mem_le_max s _ hbmem
        linarith
    · rw [if_neg he]
      have hib : s.length / 2 < s.length := by omega
      exact ⟨summarizeSorted_min_le_mem s _ (getD_mem hib),
        summarizeSorted_mem_le_max s _ (getD_mem hib)⟩
  have havg : (summarizeSorted s).min ≤ (summarizeSorted s).avg ∧
      (summarizeSorted s).avg ≤ (summarizeSorted s).max := by
    rw [summarizeSorted_avg]
    have hn : (0 : Int) < (s.length : Int) := by exact_mod_cast hslen
    constructor
    · refine le_tdiv_of_mul_le hn ?_
      have := foldl_add_ge s ((summarizeSorted s).min) 0
        (fun x hx => summarizeSorted_min_le_mem s x hx)
      linarith
    · refine tdiv_le_of_le_mul hn ?_
      have := foldl_add_le s ((summarizeSorted s).max) 0
        (fun x hx => summarizeSorted_mem_le_max s x hx)
      linarith
  have hp95 : (summarizeSorted s).min ≤ (summarizeSorted s).p95 ∧
      (summarizeSorted s).p95 ≤ (summarizeSorted s).max := by
    rw [summarizeSorted_p95]
    have hc := ceil95_le s.length
    have hidx : (if ceil95 s.length - 1 ≥ s.length then s.length - 1
        else ceil95 s.length - 1) < s.length := by
      split <;> omega
    exact ⟨summarizeSorted_min_le_mem s _ (getD_mem hidx),
      summarizeSorted_mem_le_max s _ (getD_mem hidx)⟩
  exact ⟨hmed.1, hmed.2, havg.1, havg.2, hp95.1, hp95.2⟩

/-- C7: for every series with at least one sample, the Summary of
CalculateStats satisfies min less-equal median/mean/p95 less-equal max, and
for a one-sample series all five statistics equal the single sample. -/
theorem summary_invariants (l : List Duration) (h : l ≠ []) :
    (summarize l).min ≤ (summarize l).median ∧
    (summarize l).median ≤ (summarize l).max ∧
    (summarize l).min ≤ (summarize l).avg ∧
    (summarize l).avg ≤ (summarize l).max ∧
    (summarize l).min ≤ (summarize l).p95 ∧
    (summarize l).p95 ≤ (summarize l).max ∧
    (∀ d : Duration, l = [d] →
      summarize l = { min := d, max := d, avg := d, median := d, p95 := d }) := by
  have hb := summarizeSorted_bounds (sortDurations l) (sortDurations_ne_nil h)
  refine ⟨hb.1, hb.2.1, hb.2.2.1, hb.2.2.2.1, hb.2.2.2.2.1, hb.2.2.2.2.2, ?_⟩
  intro d hd
  subst hd
  simp [summarize, summarizeSorted, sortDurations, List.insertionSort,
    List.orderedInsert, ceil95]

/-- Witness for C7 at the one-sample series [7ms]: all bounds hold and all
five statistics equal 7ms. -/
theorem summary_invariants_witness :
    (summarize [7000000]).min ≤ (summarize [7000000]).median ∧
    (summarize [7000000]).median ≤ (summarize [7000000]).max ∧
    (summarize [7000000]).min ≤ (summarize [7000000]).avg ∧
    (summarize [7000000]).avg ≤ (summarize [7000000]).max ∧
    (summarize [7000000]).min ≤ (summarize [7000000]).p95 ∧
    (summarize [7000000]).p95 ≤ (summarize [7000000]).max ∧
    (∀ d : Duration, ([7000000] : List Duration) = [d] →
      summarize [7000000] = { min := d, max := d, avg := d, median := d, p95 := d }) :=
  summary_invariants [7000000] (by decide)

/-- C2 counterexample: CalculateStats sorts the stored slice itself, so for
the reachable store holding the series [2, 1] under operation "a" (inserted
in that order), the series read back after CalculateStats is [1, 2] — the
insertion order is not preserved. -/
theorem calculateStats_mutates_store_cex :
    lookupSeries ((⟨[("a", [2, 1])]⟩ : BenchmarkResults).CalculateStatsPost).Results "a" ≠
      lookupSeries (⟨[("a", [2, 1])]⟩ : BenchmarkResults).Results "a" := by
  decide

/-- C2 amended: CalculateStats sorts each stored nonempty series in place via
sort.Slice; after the call every Results slice holds the same elements (the
same multiset) as before, but in ascending order rather than insertion
order. -/
theorem calculateStatsPost_perm_and_sorted (br : BenchmarkResults) (op : String) :
    (lookupSeries br.CalculateStatsPost.Results op).Perm (lookupSeries br.Results op) ∧
    (lookupSeries br.CalculateStatsPost.Results op).Sorted (fun a b => a ≤ b) := by
  obtain ⟨m⟩ := br
  rw [lookupSeries_calculateStatsPost]
  by_cases hnil : (lookupSeries m op).isEmpty = true
  · rw [if_pos hnil]
    have : lookupSeries m op = [] := List.isEmpty_iff.mp hnil
    rw [this]
    exact ⟨List.Perm.refl _, List.sorted_nil⟩
  · rw [if_neg hnil]
    exact ⟨sortDurations_perm _, sortDurations_sorted _⟩

/-- C6: the map CalculateStats returns holds an entry for an operation name
precisely when that operation's stored series has at least one sample; an
operation whose series is empty or absent never appears in the result. -/
theorem calculateStats_entry_iff (br : BenchmarkResults) (op : String)
    (h : (br.Results.map (fun e => e.1)).Nodup) :
    (lookupStats br.CalculateStats op).isSome = true ↔
      lookupSeries br.Results op ≠ [] := by
  obtain ⟨m⟩ := br
  rw [lookupStats_calculateStats m op h]
  by_cases hnil : lookupSeries m op = []
  · simp [hnil]
  · simp [hnil]

/-- Witness for C6 on a store where "a" has one sample, "b" has an empty
series and "c" is absent: only "a" is present in the statistics map. -/
theorem calculateStats_entry_iff_witness :
    ((lookupStats (⟨[("a", [5]), ("b", [])]⟩ : BenchmarkResults).CalculateStats "a").isSome = true ↔
      lookupSeries (⟨[("a", [5]), ("b", [])]⟩ : BenchmarkResults).Results "a" ≠ []) ∧
    ((lookupStats (⟨[("a", [5]), ("b", [])]⟩ : BenchmarkResults).CalculateStats "b").isSome = true ↔
      lookupSeries (⟨[("a", [5]), ("b", [])]⟩ : BenchmarkResults).Results "b" ≠ []) ∧
    ((lookupStats (⟨[("a", [5]), ("b", [])]⟩ : BenchmarkResults).CalculateStats "c").isSome = true ↔
      lookupSeries (⟨[("a", [5]), ("b", [])]⟩ : BenchmarkResults).Results "c" ≠ []) :=
  ⟨calculateStats_entry_iff _ _ (by decide), calculateStats_entry_iff _ _ (by decide),
    calculateStats_entry_iff _ _ (by decide)⟩

/-- C8: calling CalculateStats twice with no intervening Add yields identical
statistics maps: the in-place sorting done by the first call does not change
what the second call returns. -/
theorem calculateStats_idempotent (br : BenchmarkResults) :
    br.CalculateStatsPost.CalculateStats = br.CalculateStats := by
  obtain ⟨m⟩ := br
  simp only [BenchmarkResults.CalculateStatsPost, BenchmarkResults.CalculateStats]
  induction m with
  | nil => rfl
  | cons e rest ih =>
      obtain ⟨k, ds⟩ := e
      simp only [List.map_cons, List.filterMap_cons]
      by_cases hds : ds.isEmpty = true
      · have hnil := List.isEmpty_iff.mp hds
        subst hnil
        simpa using ih
      · have hds' : ds.isEmpty = false := by
          cases hb : ds.isEmpty
          · rfl
          · exact absurd hb hds
        have hperm := summarize_perm (sortDurations_perm ds)
        simp only [hds', Bool.false_eq_true, if_false, sortDurations_isEmpty,
          List.filterMap_cons, hperm]
        rw [ih]

/-- C9: in the rendered report, the name column is exactly 2 wider than the
longest operation name (Go len, i.e. UTF-8 byte length), each of the five
duration columns has the fixed width 12, and the data rows are emitted in
ascending lexicographic operation-name order (byte order, which on UTF-8
strings is the codepoint order used here), one row per CalculateStats
entry. -/
theorem printStats_layout (br : BenchmarkResults) :
    br.PrintStatsLayout.timeColWidth = 12 ∧
    (∀ op ∈ br.PrintStatsLayout.operations,
      op.utf8ByteSize + 2 ≤ br.PrintStatsLayout.opColWidth) ∧
    (br.PrintStatsLayout.operations ≠ [] →
      ∃ op ∈ br.PrintStatsLayout.operations,
        br.PrintStatsLayout.opColWidth = op.utf8ByteSize + 2) ∧
    br.PrintStatsLayout.operations.Sorted (fun a b => a ≤ b) ∧
    br.PrintStatsLayout.operations.Perm (br.CalculateStats.map (fun e => e.1)) := by
  have hoper : br.PrintStatsLayout.operations =
      sortStrings (br.CalculateStats.map fun e => e.1) := rfl
  have hwidth : br.PrintStatsLayout.opColWidth =
      (br.PrintStatsLayout.operations).foldl
        (fun m op => if op.utf8ByteSize > m then op.utf8ByteSize else m) 0 + 2 := rfl
  have hfold : (br.PrintStatsLayout.operations).foldl
      (fun m op => if op.utf8ByteSize > m then op.utf8ByteSize else m) 0 =
      ((br.PrintStatsLayout.operations).map String.utf8ByteSize).foldl
        (fun m d => if d > m then d else m) 0 :=
    (List.foldl_map String.utf8ByteSize (fun m d => if d > m then d else m)
      br.PrintStatsLayout.operations 0).symm
  refine ⟨rfl, ?_, ?_, ?_, ?_⟩
  · intro op hop
    rw [hwidth, hfold]
    have hle := foldl_max_mem_le ((br.PrintStatsLayout.operations).map String.utf8ByteSize)
      0 op.utf8ByteSize (List.mem_map_of_mem _ hop)
    omega
  · intro hne
    rcases foldl_max_mem ((br.PrintStatsLayout.operations).map String.utf8ByteSize) 0
      with h0 | hmem
    · obtain ⟨op, hop⟩ := List.exists_mem_of_ne_nil _ hne
      refine ⟨op, hop, ?_⟩
      have hle := foldl_max_mem_le ((br.PrintStatsLayout.operations).map String.utf8ByteSize)
        0 op.utf8ByteSize (List.mem_map_of_mem _ hop)
      rw [hwidth, hfold, h0]
      rw [h0] at hle
      omega
    · obtain ⟨op, hop, hopeq⟩ := List.mem_map.mp hmem
      exact ⟨op, hop, by rw [hwidth, hfold, ← hopeq]⟩
  · rw [hoper]
    exact List.sorted_insertionSort _ _
  · rw [hoper]
    exact List.perm_insertionSort _ _

/-- Witness for C9 on a store with operations "op a" (4 bytes, one sample)
and "b" (1 byte, one sample): width 6 name column, width 12 time columns,
rows sorted "b" before "op a". -/
theorem printStats_layout_witness :
    (⟨[("op a", [5]), ("b", [3])]⟩ : BenchmarkResults).PrintStatsLayout.timeColWidth = 12 ∧
    (∀ op ∈ (⟨[("op a", [5]), ("b", [3])]⟩ : BenchmarkResults).PrintStatsLayout.operations,
      op.utf8ByteSize + 2 ≤
        (⟨[("op a", [5]), ("b", [3])]⟩ : BenchmarkResults).PrintStatsLayout.opColWidth) ∧
    ((⟨[("op a", [5]), ("b", [3])]⟩ : BenchmarkResults).PrintStatsLayout.operations ≠ [] →
      ∃ op ∈ (⟨[("op a", [5]), ("b", [3])]⟩ : BenchmarkResults).PrintStatsLayout.operations,
        (⟨[("op a", [5]), ("b", [3])]⟩ : BenchmarkResults).PrintStatsLayout.opColWidth =
          op.utf8ByteSize + 2) ∧
    (⟨[("op a", [5]), ("b", [3])]⟩ : BenchmarkResults).PrintStatsLayout.operations.Sorted
      (fun a b => a ≤ b) ∧
    (⟨[("op a", [5]), ("b", [3])]⟩ : BenchmarkResults).PrintStatsLayout.operations.Perm
      ((⟨[("op a", [5]), ("b", [3])]⟩ : BenchmarkResults).CalculateStats.map (fun e => e.1)) :=
  printStats_layout ⟨[("op a", [5]), ("b", [3])]⟩

/-- C10: the Summary CalculateStats produces for an operation depends only on
the multiset of that operation's samples: two stores whose series for the
operation are permutations of each other yield the same result entry. -/
theorem calculateStats_perm_invariant (br₁ br₂ : BenchmarkResults) (op : String)
    (h₁ : (br₁.Results.map (fun e => e.1)).Nodup)
    (h₂ : (br₂.Results.map (fun e => e.1)).Nodup)
    (hperm : (lookupSeries br₁.Results op).Perm (lookupSeries br₂.Results op)) :
    lookupStats br₁.CalculateStats op = lookupStats br₂.CalculateStats op := by
  obtain ⟨m₁⟩ := br₁
  obtain ⟨m₂⟩ := br₂
  rw [lookupStats_calculateStats m₁ op h₁, lookupStats_calculateStats m₂ op h₂]
  rcases eq_or_ne (lookupSeries m₁ op) [] with hnil | hnil
  · have hnil₂ : lookupSeries m₂ op = [] := by
      rw [hnil] at hperm
      exact hperm.symm.eq_nil
    rw [hnil, hnil₂]
  · have hnil₂ : lookupSeries m₂ op ≠ [] := by
      intro hc
      rw [hc] at hperm
      exact hnil hperm.eq_nil
    rw [if_neg hnil, if_neg hnil₂, summarize_perm hperm]

/-- Witness for C10: the stores holding [1, 2] and [2, 1] under "a" give the
same statistics entry for "a". -/
theorem calculateStats_perm_invariant_witness :
    lookupStats (⟨[("a", [1, 2])]⟩ : BenchmarkResults).CalculateStats "a" =
      lookupStats (⟨[("a", [2, 1])]⟩ : BenchmarkResults).CalculateStats "a" :=
  calculateStats_perm_invariant _ _ _ (by decide) (by decide) (by decide)

end KBench
